import Mathlib

/-!
Shallow embedding of the bsv-blockchain/storage-server core:
the advertisement resolver (src/utils/getMetadata.ts), the storage
providers (src/utils/storage/providers/gcs.ts, s3.ts), the provider
factory (src/utils/storage/index.ts) and the SQS/S3 event-handler
(k8s/s3-event-handler/src/event-handler.js), together with proofs
about their behaviour.

JavaScript-specific semantics (string truthiness, parseInt, object
key assignment, Date#toISOString, decodeURIComponent) are modelled
explicitly below, since several behaviours of the code hinge on them.
-/

namespace StorageServer

/-- JS truthiness for an optional string: `undefined` and the empty
string are falsy; any other string is truthy (returned unchanged). -/
def jsTruthy (o : Option String) : Option String :=
  match o with
  | some s => if s = "" then none else some s
  | none => none

/-- JS `x || d` for an optional string `x` and default `d`. -/
def jsOrElse (o : Option String) (d : String) : String :=
  match jsTruthy o with
  | some s => s
  | none => d

/-- Lookup of a property in a JS object modelled as an association
list with unique keys (first binding wins, as in a JS object). -/
def jsLookup (m : List (String × String)) (k : String) : Option String :=
  (m.find? (fun p => p.1 == k)).map Prod.snd

/-- JS object property assignment `m[k] = v`: replace the first
binding of `k`, or append a new binding at the end. -/
def jsSet : List (String × String) → String → String → List (String × String)
  | [], k, v => [(k, v)]
  | p :: rest, k, v => if p.1 == k then (k, v) :: rest else p :: jsSet rest k v

/-- Decimal value of a digit character run, most significant first. -/
def digitsFold (ds : List Char) : Nat :=
  ds.foldl (fun acc c => 10 * acc + (c.toNat - 48)) 0

/-- The longest leading run of decimal digits, as a number; `none`
when the run is empty (JS `parseInt` yields `NaN` there). -/
def parseNatDigits (cs : List Char) : Option Nat :=
  let ds := cs.takeWhile Char.isDigit
  if ds = [] then none else some (digitsFold ds)

/-- JS whitespace skipped by `parseInt`. -/
def isJsSpace (c : Char) : Bool :=
  c = ' ' || c = '\t' || c = '\n' || c = '\r' || c = '\x0b' || c = '\x0c'

/-- JS `parseInt(s, 10)`: skip whitespace, optional sign, longest
digit run; `none` models `NaN`. -/
def parseIntJS (s : String) : Option Int :=
  match s.data.dropWhile isJsSpace with
  | '-' :: t => (parseNatDigits t).map (fun n => -(n : Int))
  | '+' :: t => (parseNatDigits t).map (fun n => (n : Int))
  | t => (parseNatDigits t).map (fun n => (n : Int))

/-- `parseInt(s, 10) || 0` as used by the resolver: a `NaN` result
(malformed expiry tag) is replaced by `0`. -/
def parseExpiry (s : String) : Int :=
  (parseIntJS s).getD 0

/-- `s.startsWith(pre)`, computed on the character lists so that the
kernel can evaluate it on concrete inputs. -/
def strStartsWith (s pre : String) : Bool :=
  pre.data.isPrefixOf s.data

/-- Drop the first `n` characters of `s`, on the character list. -/
def strDrop (s : String) (n : Nat) : String :=
  String.mk (s.data.drop n)

/-- `s.toLowerCase()` (ASCII), computed on the character list so that
the kernel can evaluate it on concrete inputs. -/
def strToLower (s : String) : String :=
  String.mk (s.data.map Char.toLower)

/-- Value of a hexadecimal digit character. -/
def hexDigitVal (c : Char) : Option Nat :=
  if '0' ≤ c ∧ c ≤ '9' then some (c.toNat - 48)
  else if 'a' ≤ c ∧ c ≤ 'f' then some (c.toNat - 87)
  else if 'A' ≤ c ∧ c ≤ 'F' then some (c.toNat - 55)
  else none

/-- Hex string to bytes, modelling the SDK's `Utils.toArray(s, 'hex')`:
pairs of hex digits become bytes; an invalid pair is modelled as byte 0
and a trailing odd digit is dropped. -/
def hexToBytes : List Char → List Nat
  | a :: b :: rest =>
    (match hexDigitVal a, hexDigitVal b with
     | some x, some y => 16 * x + y
     | _, _ => 0) :: hexToBytes rest
  | _ => []

/-- UTF-8 encoding of one character, as a list of byte values. -/
def utf8EncodeCharNat (c : Char) : List Nat :=
  let n := c.toNat
  if n < 0x80 then [n]
  else if n < 0x800 then
    [0xC0 ||| (n >>> 6), 0x80 ||| (n &&& 0x3F)]
  else if n < 0x10000 then
    [0xE0 ||| (n >>> 12), 0x80 ||| ((n >>> 6) &&& 0x3F), 0x80 ||| (n &&& 0x3F)]
  else
    [0xF0 ||| (n >>> 18), 0x80 ||| ((n >>> 12) &&& 0x3F),
     0x80 ||| ((n >>> 6) &&& 0x3F), 0x80 ||| (n &&& 0x3F)]

/-- Is `b` a UTF-8 continuation byte? -/
def isCont (b : Nat) : Bool := 0x80 ≤ b && b < 0xC0

/-- Strict UTF-8 decoding (used to model `decodeURIComponent`, which
throws on malformed percent-encoded byte sequences).  The `fuel`
argument makes the recursion structural; the wrapper below passes the
list length, which always suffices since every step consumes at least
one byte. -/
def utf8DecodeStrictFuel : Nat → List Nat → Option (List Char)
  | _, [] => some []
  | 0, _ :: _ => none
  | fuel + 1, b :: rest =>
    if b < 0x80 then
      (utf8DecodeStrictFuel fuel rest).map (fun cs => Char.ofNat b :: cs)
    else if b < 0xC2 then none
    else if b < 0xE0 then
      match rest with
      | b1 :: rest1 =>
        if isCont b1 then
          (utf8DecodeStrictFuel fuel rest1).map
            (fun cs => Char.ofNat (((b - 0xC0) <<< 6) + (b1 - 0x80)) :: cs)
        else none
      | _ => none
    else if b < 0xF0 then
      match rest with
      | b1 :: b2 :: rest2 =>
        if isCont b1 && isCont b2 then
          let n := ((b - 0xE0) <<< 12) + ((b1 - 0x80) <<< 6) + (b2 - 0x80)
          if 0x800 ≤ n ∧ ¬ (0xD800 ≤ n ∧ n < 0xE000) then
            (utf8DecodeStrictFuel fuel rest2).map (fun cs => Char.ofNat n :: cs)
          else none
        else none
      | _ => none
    else if b < 0xF5 then
      match rest with
      | b1 :: b2 :: b3 :: rest3 =>
        if isCont b1 && isCont b2 && isCont b3 then
          let n := ((b - 0xF0) <<< 18) + ((b1 - 0x80) <<< 12) +
                   ((b2 - 0x80) <<< 6) + (b3 - 0x80)
          if 0x10000 ≤ n ∧ n < 0x110000 then
            (utf8DecodeStrictFuel fuel rest3).map (fun cs => Char.ofNat n :: cs)
          else none
        else none
      | _ => none
    else none

/-- Strict UTF-8 decoding of a byte list. -/
def utf8DecodeStrict (l : List Nat) : Option (List Char) :=
  utf8DecodeStrictFuel l.length l

/-- Lossy UTF-8 decoding, modelling the SDK's `Utils.toUTF8`: a
malformed byte yields U+FFFD and decoding continues.  Fuel as above. -/
def utf8DecodeLossyFuel : Nat → List Nat → List Char
  | _, [] => []
  | 0, _ :: _ => []
  | fuel + 1, b :: rest =>
    if b < 0x80 then Char.ofNat b :: utf8DecodeLossyFuel fuel rest
    else if 0xC2 ≤ b ∧ b < 0xE0 then
      match rest with
      | b1 :: rest1 =>
        if isCont b1 then
          Char.ofNat (((b - 0xC0) <<< 6) + (b1 - 0x80)) ::
            utf8DecodeLossyFuel fuel rest1
        else Char.ofNat 0xFFFD :: utf8DecodeLossyFuel fuel rest
      | _ => [Char.ofNat 0xFFFD]
    else if 0xE0 ≤ b ∧ b < 0xF0 then
      match rest with
      | b1 :: b2 :: rest2 =>
        if isCont b1 && isCont b2 then
          Char.ofNat (((b - 0xE0) <<< 12) + ((b1 - 0x80) <<< 6) + (b2 - 0x80)) ::
            utf8DecodeLossyFuel fuel rest2
        else Char.ofNat 0xFFFD :: utf8DecodeLossyFuel fuel rest
      | _ => [Char.ofNat 0xFFFD]
    else if 0xF0 ≤ b ∧ b < 0xF5 then
      match rest with
      | b1 :: b2 :: b3 :: rest3 =>
        if isCont b1 && isCont b2 && isCont b3 then
          Char.ofNat (((b - 0xF0) <<< 18) + ((b1 - 0x80) <<< 12) +
                      ((b2 - 0x80) <<< 6) + (b3 - 0x80)) ::
            utf8DecodeLossyFuel fuel rest3
        else Char.ofNat 0xFFFD :: utf8DecodeLossyFuel fuel rest
      | _ => [Char.ofNat 0xFFFD]
    else Char.ofNat 0xFFFD :: utf8DecodeLossyFuel fuel rest

/-- Lossy UTF-8 decoding of a byte list. -/
def utf8DecodeLossy (l : List Nat) : List Char :=
  utf8DecodeLossyFuel l.length l

/-- Left-pad a numeral with zeros to the given width. -/
def padNum (width n : Nat) : String :=
  let s := toString n
  String.mk (List.replicate (width - s.length) '0') ++ s

/-- `new Date(ms).toISOString()`: proleptic-Gregorian civil date from
days since the epoch (era-based algorithm), then
`YYYY-MM-DDTHH:MM:SS.mmmZ` (expanded-year form outside 0000..9999). -/
def jsToISOString (ms : Int) : String :=
  let days : Int := ms.ediv 86400000
  let msod : Nat := (ms.emod 86400000).toNat
  let z : Int := days + 719468
  let era : Int := z.ediv 146097
  let doe : Nat := (z.emod 146097).toNat
  let yoe : Nat := (doe - doe / 1460 + doe / 36524 - doe / 146096) / 365
  let y0 : Int := (yoe : Int) + era * 400
  let doy : Nat := doe - (365 * yoe + yoe / 4 - yoe / 100)
  let mp : Nat := (5 * doy + 2) / 153
  let d : Nat := doy - (153 * mp + 2) / 5 + 1
  let m : Nat := if mp < 10 then mp + 3 else mp - 9
  let y : Int := if m ≤ 2 then y0 + 1 else y0
  let hh : Nat := msod / 3600000
  let mi : Nat := msod % 3600000 / 60000
  let ss : Nat := msod % 60000 / 1000
  let mss : Nat := msod % 1000
  let yearStr :=
    if 0 ≤ y ∧ y < 10000 then padNum 4 y.toNat
    else if y < 0 then "-" ++ padNum 6 (-y).toNat
    else "+" ++ padNum 6 y.toNat
  yearStr ++ "-" ++ padNum 2 m ++ "-" ++ padNum 2 d ++ "T" ++
    padNum 2 hh ++ ":" ++ padNum 2 mi ++ ":" ++ padNum 2 ss ++ "." ++
    padNum 3 mss ++ "Z"

/-! ## Advertisement resolver — src/utils/getMetadata.ts -/

/-- One output returned by `wallet.listOutputs`; only its tag list is
consulted by the resolver.  `tags` is optional in the wallet's answer
(`if (!out.tags) continue`). -/
structure WalletOutput where
  tags : Option (List String)
deriving DecidableEq, Repr

/-- Canonical object metadata returned by a storage provider
(`ObjectMetadata` in src/utils/storage/types.ts). -/
structure ObjectMetadata where
  size : Int
  contentType : String
  lastModified : Int
  customMetadata : List (String × String)
deriving DecidableEq, Repr

/-- The record composed by the resolver (`FileMetadata` in
src/utils/getMetadata.ts); per its doc comment, `expiryTime` is
"minutes since the Unix epoch". -/
structure FileMetadata where
  objectIdentifier : String
  name : String
  size : String
  contentType : String
  expiryTime : Int
deriving DecidableEq, Repr

/-- Outcome of `getMetadata`: the two thrown errors, a propagated
storage-adapter failure, or the composed record. -/
inductive ResolveResult where
  | noAdvertisementFound
  | advertisementExpired
  | storageError (e : String)
  | success (fm : FileMetadata)
deriving DecidableEq, Repr

/-- `Utils.toUTF8(Utils.toArray(s, 'hex'))`: hex-decode then UTF-8
decode the object-identifier tag payload. -/
def decodeOid (s : String) : String :=
  String.mk (utf8DecodeLossy (hexToBytes s.data))

/-- The candidate a wallet output contributes to the scan: present
exactly when the output has both an `object_identifier_` tag and an
`expiry_time_` tag, and then carrying the decoded identifier and the
parsed expiry (malformed expiry parsed as 0).  This factors the body
of the `for` loop of `getMetadata`. -/
def candidateOf (out : WalletOutput) : Option (String × Int) :=
  match out.tags with
  | none => none
  | some ts =>
    match ts.find? (fun t => strStartsWith t "object_identifier_"),
          ts.find? (fun t => strStartsWith t "expiry_time_") with
    | some oidTag, some expTag =>
      some (decodeOid (strDrop oidTag "object_identifier_".length),
            parseExpiry (strDrop expTag "expiry_time_".length))
    | _, _ => none

/-- One iteration of the scanning loop of `getMetadata`: the running
accumulator is `(objectIdentifier, maxpiry)`, updated when the
candidate's expiry strictly exceeds the running maximum
(`if (expiryNum > maxpiry)`), with `maxpiry` starting at 0. -/
def scanStep (acc : Option String × Int) (out : WalletOutput) :
    Option String × Int :=
  match candidateOf out with
  | none => acc
  | some p => if acc.2 < p.2 then (some p.1, p.2) else acc

/-- The full scan over the outputs returned by the wallet. -/
def scanOutputs (outs : List WalletOutput) : Option String × Int :=
  outs.foldl scanStep (none, 0)

/-- `getMetadata(uhrpUrl, uploaderIdentityKey, ...)` after the wallet
call, embedded over the returned `outputs`, the current wall clock in
milliseconds, and the storage adapter's `getObjectMetadata`.
`if (!objectIdentifier)` is JS truthiness: an undefined identifier and
an identifier that decoded to the empty string both raise
`No advertisement found`. -/
def getMetadata (outputs : List WalletOutput) (nowMs : Int)
    (store : String → Except String ObjectMetadata) : ResolveResult :=
  let r := scanOutputs outputs
  match r.1 with
  | none => .noAdvertisementFound
  | some objectIdentifier =>
    if objectIdentifier = "" then .noAdvertisementFound
    else if r.2 * 1000 < nowMs then .advertisementExpired
    else
      match store ("cdn/" ++ objectIdentifier) with
      | .error e => .storageError e
      | .ok metadata =>
        .success
          { objectIdentifier := objectIdentifier
            name := "cdn/" ++ objectIdentifier
            size := toString metadata.size
            contentType := metadata.contentType
            expiryTime := r.2 }

/-! ### Spec-side selection (§4.3, written from the spec's words)

The spec says: among all candidates having both required tags, select
the one with the strictly greatest parsed expiry; ties are broken by
the first candidate encountered in store order. -/

/-- The eligible candidates, in store order. -/
def eligiblePairs (outs : List WalletOutput) : List (String × Int) :=
  outs.filterMap candidateOf

/-- Does an output carry both required tags? (spec §4.3 / §8) -/
def hasBothTags (out : WalletOutput) : Bool :=
  match out.tags with
  | none => false
  | some ts =>
    (ts.find? (fun t => strStartsWith t "object_identifier_")).isSome &&
    (ts.find? (fun t => strStartsWith t "expiry_time_")).isSome

/-- The greatest parsed expiry among the candidates; `none` when
there are no candidates. -/
def maxExpiry : List (String × Int) → Option Int
  | [] => none
  | p :: l =>
    some (match maxExpiry l with
          | none => p.2
          | some m => max p.2 m)

/-- Spec-side selection: the first candidate (in store order) whose
parsed expiry equals the greatest parsed expiry. -/
def specSelect (l : List (String × Int)) : Option (String × Int) :=
  match maxExpiry l with
  | none => none
  | some M => l.find? (fun p => p.2 == M)

/-- The resolver's selection as the claim words it: maximum parsed
expiry among candidates with both tags, first wins on ties. -/
def resolverSpecSelection (outs : List WalletOutput) : Option (String × Int) :=
  specSelect (eligiblePairs outs)

/-- The winner the code can actually commit to: the spec-side
selection restricted to a strictly positive maximum expiry. -/
def resolverSpecWinner (outs : List WalletOutput) : Option (String × Int) :=
  match maxExpiry (eligiblePairs outs) with
  | none => none
  | some M => if 0 < M then specSelect (eligiblePairs outs) else none

/-! ### Characterisation of the scan -/

/-- The scanning step on an eligible candidate pair. -/
def pairStep (acc : Option String × Int) (p : String × Int) :
    Option String × Int :=
  if acc.2 < p.2 then (some p.1, p.2) else acc

/-- Running maximum of the expiries, seeded with `m`. -/
def foldMax (m : Int) (l : List (String × Int)) : Int :=
  l.foldl (fun acc p => max acc p.2) m

theorem scan_eq_pairs (outs : List WalletOutput) (acc : Option String × Int) :
    outs.foldl scanStep acc = (eligiblePairs outs).foldl pairStep acc := by
  induction outs generalizing acc with
  | nil => rfl
  | cons out rest ih =>
    simp only [List.foldl_cons, eligiblePairs, List.filterMap_cons]
    cases h : candidateOf out with
    | none =>
      simpa [scanStep, h, eligiblePairs] using ih acc
    | some p =>
      simp only [scanStep, h, List.foldl_cons]
      simpa [eligiblePairs] using ih (pairStep acc p)

theorem pairs_foldl_snd (l : List (String × Int)) :
    ∀ (o : Option String) (m : Int), (l.foldl pairStep (o, m)).2 = foldMax m l := by
  induction l with
  | nil => intro o m; rfl
  | cons p rest ih =>
    intro o m
    simp only [List.foldl_cons, pairStep, foldMax]
    by_cases h : m < p.2
    · simp only [h, if_pos]
      have := ih (some p.1) p.2
      simp only [foldMax] at this
      rw [this, max_eq_right h.le]
    · simp only [h, if_neg, not_false_iff]
      have := ih o m
      simp only [foldMax] at this
      rw [this, max_eq_left (le_of_not_lt h)]

theorem le_foldMax (l : List (String × Int)) : ∀ m : Int, m ≤ foldMax m l := by
  induction l with
  | nil => intro m; exact le_refl m
  | cons p rest ih =>
    intro m
    calc m ≤ max m p.2 := le_max_left _ _
    _ ≤ foldMax (max m p.2) rest := ih _
    _ = foldMax m (p :: rest) := rfl

theorem mem_le_foldMax (l : List (String × Int)) :
    ∀ p ∈ l, ∀ m : Int, p.2 ≤ foldMax m l := by
  induction l with
  | nil => intro p hp; cases hp
  | cons q rest ih =>
    intro p hp m
    rcases List.mem_cons.mp hp with h | h
    · subst h
      calc p.2 ≤ max m p.2 := le_max_right _ _
      _ ≤ foldMax (max m p.2) rest := le_foldMax _ _
    · exact ih p h _

theorem foldMax_attained (l : List (String × Int)) :
    ∀ m : Int, m < foldMax m l → ∃ p ∈ l, p.2 = foldMax m l := by
  induction l with
  | nil => intro m h; exact absurd h (lt_irrefl m)
  | cons p rest ih =>
    intro m h
    by_cases h2 : max m p.2 < foldMax (max m p.2) rest
    · obtain ⟨q, hq, hq2⟩ := ih (max m p.2) h2
      exact ⟨q, List.mem_cons_of_mem _ hq, hq2⟩
    · have heq : foldMax m (p :: rest) = max m p.2 :=
        le_antisymm (le_of_not_lt h2) (le_foldMax _ _)
      rcases max_cases m p.2 with ⟨hmax, _⟩ | ⟨hmax, _⟩
      · rw [heq, hmax] at h; exact absurd h (lt_irrefl m)
      · exact ⟨p, List.mem_cons_self _ _, by rw [heq, hmax]⟩

theorem pairs_foldl_stay (l : List (String × Int)) :
    ∀ (o : Option String) (m : Int), (∀ p ∈ l, p.2 ≤ m) →
      l.foldl pairStep (o, m) = (o, m) := by
  induction l with
  | nil => intro o m _; rfl
  | cons p rest ih =>
    intro o m h
    have hp : p.2 ≤ m := h p (List.mem_cons_self _ _)
    simp only [List.foldl_cons, pairStep, not_lt.mpr hp, if_neg, not_lt,
      lt_irrefl, not_false_iff]
    exact ih o m (fun q hq => h q (List.mem_cons_of_mem _ hq))

theorem find_pred_eq {α : Type} (l : List α) (f g : α → Bool)
    (h : ∀ x ∈ l, f x = g x) : l.find? f = l.find? g := by
  induction l with
  | nil => rfl
  | cons x rest ih =>
    have hx := h x (List.mem_cons_self _ _)
    simp only [List.find?_cons]
    rw [hx]
    cases g x with
    | true => rfl
    | false => exact ih (fun y hy => h y (List.mem_cons_of_mem _ hy))

theorem pairs_foldl_fst (l : List (String × Int)) :
    ∀ (o : Option String) (m M : Int), foldMax m l = M → m < M →
      (l.foldl pairStep (o, m)).1 =
        (l.find? (fun p => decide (M ≤ p.2))).map Prod.fst := by
  induction l with
  | nil =>
    intro o m M hM hlt
    simp only [foldMax, List.foldl_nil] at hM
    subst hM; exact absurd hlt (lt_irrefl m)
  | cons p rest ih =>
    intro o m M hM hlt
    have hM' : foldMax (max m p.2) rest = M := hM
    by_cases hp : m < p.2
    · rw [max_eq_right hp.le] at hM'
      by_cases h2 : p.2 < M
      · have := ih (some p.1) p.2 M hM' h2
        simp only [List.foldl_cons, pairStep, hp, if_pos]
        rw [this]
        have hpred : (decide (M ≤ p.2)) = false := by
          simp [not_le.mpr h2]
        simp [List.find?_cons, hpred]
      · have hpM : p.2 = M := by
          have : p.2 ≤ foldMax p.2 rest := le_foldMax _ _
          rw [hM'] at this
          exact le_antisymm this (le_of_not_lt h2)
        have hall : ∀ q ∈ rest, q.2 ≤ p.2 := by
          intro q hq
          have := mem_le_foldMax rest q hq p.2
          rw [hM', ← hpM] at this
          exact this
        simp only [List.foldl_cons, pairStep, hp, if_pos]
        rw [pairs_foldl_stay rest (some p.1) p.2 hall]
        have hpred : (decide (M ≤ p.2)) = true := by simp [hpM.ge]
        simp [List.find?_cons, hpred]
    · rw [max_eq_left (le_of_not_lt hp)] at hM'
      have := ih o m M hM' hlt
      simp only [List.foldl_cons, pairStep, hp, if_neg, not_false_iff]
      rw [this]
      have hpv : p.2 < M := lt_of_le_of_lt (le_of_not_lt hp) hlt
      have hpred : (decide (M ≤ p.2)) = false := by simp [not_le.mpr hpv]
      simp [List.find?_cons, hpred]

theorem maxExpiry_foldMax (l : List (String × Int)) :
    ∀ m : Int, foldMax m l =
      match maxExpiry l with
      | none => m
      | some M => max m M := by
  induction l with
  | nil => intro m; rfl
  | cons p rest ih =>
    intro m
    have : foldMax m (p :: rest) = foldMax (max m p.2) rest := rfl
    rw [this, ih (max m p.2)]
    cases h : maxExpiry rest with
    | none => simp [maxExpiry, h]
    | some M => simp [maxExpiry, h, max_assoc]

theorem maxExpiry_eq_none_iff (l : List (String × Int)) :
    maxExpiry l = none ↔ l = [] := by
  cases l with
  | nil => simp [maxExpiry]
  | cons p rest => simp [maxExpiry]

/-- The second scan component is the running maximum (seeded with 0)
of the eligible candidates' parsed expiries. -/
theorem scan_snd (outs : List WalletOutput) :
    (scanOutputs outs).2 = foldMax 0 (eligiblePairs outs) := by
  rw [scanOutputs, scan_eq_pairs]
  exact pairs_foldl_snd _ _ _

/-- The identifier the scan commits to is exactly the spec-side
winner restricted to strictly positive maximum expiry: the first
eligible candidate attaining the maximum, provided that maximum is
positive; no candidate at all otherwise. -/
theorem scan_fst_eq_winner (outs : List WalletOutput) :
    (scanOutputs outs).1 = (resolverSpecWinner outs).map Prod.fst := by
  rw [scanOutputs, scan_eq_pairs, resolverSpecWinner]
  cases hM : maxExpiry (eligiblePairs outs) with
  | none =>
    rw [maxExpiry_eq_none_iff] at hM
    simp [hM]
  | some M =>
    have hfold : foldMax 0 (eligiblePairs outs) = max 0 M := by
      rw [maxExpiry_foldMax, hM]
    by_cases hpos : 0 < M
    · rw [max_eq_right hpos.le] at hfold
      rw [pairs_foldl_fst _ none 0 M hfold hpos]
      simp only [hpos, if_pos, specSelect, hM]
      congr 1
      apply find_pred_eq
      intro p hp
      have hle : p.2 ≤ M := by
        have := mem_le_foldMax _ p hp 0
        rw [hfold] at this
        exact this
      rcases lt_or_eq_of_le hle with h | h
      · simp [not_le.mpr h, h.ne]
      · simp [h]
    · rw [max_eq_left (le_of_not_lt (by omega))] at hfold
      have hall : ∀ p ∈ eligiblePairs outs, p.2 ≤ 0 := by
        intro p hp
        have := mem_le_foldMax _ p hp 0
        rw [hfold] at this
        exact this
      rw [pairs_foldl_stay _ none 0 hall]
      simp [hpos]

/-- `getMetadata` raises `No advertisement found` exactly when the
scan committed to no identifier, or to one that decoded to the empty
string (JS falsiness of `objectIdentifier`). -/
theorem getMetadata_nf_iff (outs : List WalletOutput) (nowMs : Int)
    (store : String → Except String ObjectMetadata) :
    getMetadata outs nowMs store = .noAdvertisementFound ↔
      ((scanOutputs outs).1 = none ∨ (scanOutputs outs).1 = some "") := by
  unfold getMetadata
  rcases h : scanOutputs outs with ⟨o, m⟩
  cases o with
  | none => simp
  | some oid =>
    by_cases hid : oid = ""
    · subst hid; simp
    · have hne : ¬ (some oid = none ∨ some oid = some "") := by
        rintro (hno | hs)
        · exact Option.noConfusion hno
        · injection hs with hs; exact hid hs
      simp only [hid, if_neg, not_false_iff]
      constructor
      · intro hcontra
        exfalso
        split at hcontra
        · cases hcontra
        · split at hcontra <;> cases hcontra
      · intro h; exact (hne h).elim

/-! ## Claims C1–C3 -/

/-- A single candidate carrying both required tags whose expiry tag
parses to 0. -/
def c1CounterOutputs : List WalletOutput :=
  [{ tags := some ["object_identifier_6162", "expiry_time_0"] }]

/-- C1, counterexample: the spec-side selection (maximum parsed
expiry among candidates with both tags) picks the single candidate
`("ab", 0)`, but the code's scan selects no candidate at all, because
the running maximum starts at 0 and only a strictly greater expiry is
ever committed. -/
theorem c1_selection_counterexample :
    resolverSpecSelection c1CounterOutputs = some ("ab", 0) ∧
    (scanOutputs c1CounterOutputs).1 = none := by
  constructor
  · decide
  · decide

/-- C1 (amended): whenever the greatest parsed expiry `M` among
candidates with both tags is strictly positive, the scan selects the
first candidate (in store order) attaining `M` — maximum wins, ties
go to the first encountered — and a malformed expiry tag is parsed as
0 without aborting the (total) scan; candidates are never selected
when the maximum parsed expiry is not strictly positive. -/
theorem c1_resolver_selects_max_expiry (outs : List WalletOutput) (M : Int)
    (hM : maxExpiry (eligiblePairs outs) = some M) (hpos : 0 < M) :
    scanOutputs outs = ((resolverSpecSelection outs).map Prod.fst, M) ∧
    (∀ s, parseIntJS s = none → parseExpiry s = 0) := by
  refine ⟨?_, fun s hs => by simp [parseExpiry, hs]⟩
  have hfst := scan_fst_eq_winner outs
  have hsnd := scan_snd outs
  have hw : resolverSpecWinner outs = resolverSpecSelection outs := by
    unfold resolverSpecWinner resolverSpecSelection
    rw [hM]
    simp [hpos]
  rw [hw] at hfst
  have hfold : foldMax 0 (eligiblePairs outs) = M := by
    rw [maxExpiry_foldMax, hM]
    exact max_eq_right hpos.le
  rcases hscan : scanOutputs outs with ⟨o, m⟩
  rw [hscan] at hfst hsnd
  simp only at hfst hsnd
  rw [hfold] at hsnd
  rw [hfst, hsnd]

/-- Two candidates with expiries 1000 and 2000 for the amended C1:
the scan picks the decoded identifier of the 2000-expiry candidate. -/
def c1WitnessOutputs : List WalletOutput :=
  [{ tags := some ["object_identifier_6161", "expiry_time_1000"] },
   { tags := some ["object_identifier_6162", "expiry_time_2000"] }]

theorem c1_resolver_selects_max_expiry_witness :
    maxExpiry (eligiblePairs c1WitnessOutputs) = some 2000 ∧
    (0 : Int) < 2000 ∧
    (scanOutputs c1WitnessOutputs =
       ((resolverSpecSelection c1WitnessOutputs).map Prod.fst, 2000) ∧
     (∀ s, parseIntJS s = none → parseExpiry s = 0)) :=
  ⟨by decide, by decide,
   c1_resolver_selects_max_expiry c1WitnessOutputs 2000 (by decide) (by decide)⟩

/-- A winning advertisement whose expiry tag holds 4102444800
(seconds of 2100-01-01), and a storage adapter knowing `cdn/ab`. -/
def c2Outputs : List WalletOutput :=
  [{ tags := some ["object_identifier_6162", "expiry_time_4102444800"] }]

def c2Store : String → Except String ObjectMetadata := fun k =>
  if k = "cdn/ab" then
    .ok { size := 123, contentType := "text/plain", lastModified := 0,
          customMetadata := [] }
  else .error "NotFound"

/-- C2: on a successful resolution the composed record carries the
decoded identifier, the key `cdn/{objectIdentifier}`, the size and
the content type — but `expiryTime` is the winning expiry in
seconds-since-epoch (4102444800), even though the `FileMetadata`
interface documents the field as minutes since the Unix epoch
(which would be 68374080 = 4102444800 / 60). -/
theorem c2_expiryTime_is_seconds_not_minutes :
    getMetadata c2Outputs 1760000000000 c2Store =
      .success { objectIdentifier := "ab", name := "cdn/ab", size := "123",
                 contentType := "text/plain", expiryTime := 4102444800 } ∧
    (4102444800 : Int) = 68374080 * 60 ∧ (4102444800 : Int) ≠ 68374080 := by
  refine ⟨by decide, by decide, by decide⟩

/-- Same candidate shape as `c1CounterOutputs`, for claim C3. -/
def c3CounterOutputs : List WalletOutput :=
  [{ tags := some ["object_identifier_6162", "expiry_time_0"] }]

def c3CounterStore : String → Except String ObjectMetadata :=
  fun _ => .error "unused"

/-- C3, counterexample: a candidate carries both required tags, yet
resolution fails with `NoAdvertisementFound` (its parsed expiry is 0,
so the scan never commits to it). -/
theorem c3_counterexample :
    (∃ out ∈ c3CounterOutputs, hasBothTags out = true) ∧
    getMetadata c3CounterOutputs 0 c3CounterStore = .noAdvertisementFound := by
  constructor
  · decide
  · decide

/-- C3 (amended): the resolver fails with `NoAdvertisementFound`
exactly when the scan yields no usable winner — no candidate has both
required tags together with a strictly positive parsed expiry, or the
winning candidate's object-identifier tag decodes to the empty
string.  In particular the failure mode can be `NoAdvertisementFound`
even when a candidate carries both required tags. -/
theorem c3_noAdvertisementFound_iff (outs : List WalletOutput) (nowMs : Int)
    (store : String → Except String ObjectMetadata) :
    getMetadata outs nowMs store = .noAdvertisementFound ↔
      (resolverSpecWinner outs = none ∨
       ∃ e : Int, resolverSpecWinner outs = some ("", e)) := by
  rw [getMetadata_nf_iff]
  have hfst := scan_fst_eq_winner outs
  cases hw : resolverSpecWinner outs with
  | none =>
    rw [hw] at hfst
    simp only [Option.map_none'] at hfst
    simp [hfst]
  | some p =>
    rw [hw] at hfst
    simp only [Option.map_some'] at hfst
    rcases p with ⟨pid, pe⟩
    simp only [hfst]
    constructor
    · rintro (hcontra | hid)
      · cases hcontra
      · injection hid with hid
        exact Or.inr ⟨pe, by rw [hid]⟩
    · rintro (hcontra | ⟨e, he⟩)
      · cases hcontra
      · injection he with he1
        injection he1 with hid _
        exact Or.inr (by rw [hid])

/-! ## Storage providers — src/utils/storage/providers/{gcs,s3}.ts -/

/-- `UploadParams` of src/utils/storage/types.ts: `expiryTime` is in
seconds since the epoch. -/
structure UploadParams where
  size : Int
  expiryTime : Int
  objectIdentifier : String
  uploaderIdentityKey : String
deriving DecidableEq, Repr

/-- `UploadResponse` of types.ts (the S3 provider additionally
returns `formFields`). -/
structure UploadResponse where
  uploadURL : String
  requiredHeaders : List (String × String)
  formFields : Option (List (String × String))
deriving DecidableEq, Repr

/-- The options object `GCSStorageProvider.generateUploadURL` passes
to `bucketFile.getSignedUrl`; `expires` is an absolute time in
milliseconds. -/
structure GCSSignedUrlOptions where
  version : String
  action : String
  expires : Int
  extensionHeaders : List (String × String)
deriving DecidableEq, Repr

/-- The signing request built by `GCSStorageProvider.generateUploadURL`
(gcs.ts lines 43–59), at current wall clock `nowMs`. -/
def gcsSignedUrlOptions (nowMs : Int) (p : UploadParams) : GCSSignedUrlOptions :=
  let customTime := jsToISOString ((p.expiryTime + 300) * 1000)
  { version := "v4"
    action := "write"
    expires := nowMs + 604000 * 1000
    extensionHeaders :=
      [("content-length", toString p.size),
       ("x-goog-meta-uploaderidentitykey", p.uploaderIdentityKey),
       ("x-goog-custom-time", customTime)] }

/-- `GCSStorageProvider.generateUploadURL`, with the SDK's URL signer
abstracted as `sign`. -/
def gcsGenerateUploadURL (sign : GCSSignedUrlOptions → String)
    (nowMs : Int) (p : UploadParams) : UploadResponse :=
  let customTime := jsToISOString ((p.expiryTime + 300) * 1000)
  { uploadURL := sign (gcsSignedUrlOptions nowMs p)
    requiredHeaders :=
      [("content-length", toString p.size),
       ("x-goog-meta-uploaderidentitykey", p.uploaderIdentityKey),
       ("x-goog-custom-time", customTime)]
    formFields := none }

/-- A condition in an S3 presigned-POST policy. -/
inductive S3Condition where
  | contentLengthRange (lo hi : Int)
  | startsWithCond (field value : String)
deriving DecidableEq, Repr

/-- The argument object `S3StorageProvider.generateUploadURL` passes
to `createPresignedPost` (s3.ts lines 55–68); `expires` is a validity
duration in seconds. -/
structure PresignedPostParams where
  bucket : String
  key : String
  conditions : List S3Condition
  fields : List (String × String)
  expires : Int
deriving DecidableEq, Repr

/-- The presigned-POST request built by
`S3StorageProvider.generateUploadURL`. -/
def s3PresignedPostParams (bucketName : String) (p : UploadParams) :
    PresignedPostParams :=
  let objectKey := "cdn/" ++ p.objectIdentifier
  let customTime := jsToISOString ((p.expiryTime + 300) * 1000)
  { bucket := bucketName
    key := objectKey
    conditions :=
      [.contentLengthRange p.size p.size,
       .startsWithCond "$x-amz-meta-uploaderidentitykey" "",
       .startsWithCond "$x-amz-meta-customtime" ""]
    fields :=
      [("x-amz-meta-uploaderidentitykey", p.uploaderIdentityKey),
       ("x-amz-meta-customtime", customTime)]
    expires := 604800 }

/-- `S3StorageProvider.generateUploadURL`, with the SDK's
`createPresignedPost` abstracted as `presign` (it returns the URL and
the form fields, which include the policy fields merged over
`Fields`). -/
def s3GenerateUploadURL
    (presign : PresignedPostParams → String × List (String × String))
    (bucketName : String) (p : UploadParams) : UploadResponse :=
  let r := presign (s3PresignedPostParams bucketName p)
  { uploadURL := r.1
    requiredHeaders := [("content-type", "multipart/form-data")]
    formFields := some r.2 }

/-! ## Claims C5–C6 -/

/-- C5: for every upload grant, both providers bind the `customtime`
metadata value to `(expiryTime + 300)` seconds — the requested expiry
plus 5 minutes — formatted by the same ISO-8601 rendering
(`Date#toISOString`): the GCS provider as the signed
`x-goog-custom-time` extension header, the S3 provider as the
`x-amz-meta-customtime` form field of the POST policy. -/
theorem c5_customtime_expiry_plus_300 (nowMs : Int) (bucketName : String)
    (p : UploadParams) :
    jsLookup (gcsSignedUrlOptions nowMs p).extensionHeaders
        "x-goog-custom-time" =
      some (jsToISOString ((p.expiryTime + 300) * 1000)) ∧
    jsLookup (s3PresignedPostParams bucketName p).fields
        "x-amz-meta-customtime" =
      some (jsToISOString ((p.expiryTime + 300) * 1000)) ∧
    jsLookup (gcsSignedUrlOptions nowMs p).extensionHeaders
        "x-goog-custom-time" =
      jsLookup (s3PresignedPostParams bucketName p).fields
        "x-amz-meta-customtime" := by
  refine ⟨?_, ?_, ?_⟩ <;> rfl

/-- C6: the S3 provider's grant is valid for 604800 seconds (one
week), but the GCS provider signs an absolute expiry of `now +
604000` seconds — 800 seconds short of the week its adjacent comment
promises — so the two providers do not share the claimed fixed
one-week window. -/
theorem c6_gcs_week_is_604000_seconds (nowMs : Int) (bucketName : String)
    (p : UploadParams) :
    (gcsSignedUrlOptions nowMs p).expires = nowMs + 604000 * 1000 ∧
    (s3PresignedPostParams bucketName p).expires = 604800 ∧
    (604800 : Int) = 7 * 24 * 60 * 60 ∧ (604000 : Int) ≠ 604800 := by
  refine ⟨rfl, rfl, by decide, by decide⟩

/-! ## S3 copy-based metadata update — s3.ts `updateObjectMetadata` -/

/-- The relevant parts of the `HeadObject` answer for the object
being patched. -/
structure S3HeadInfo where
  contentLength : Int
  contentType : String
  metadata : List (String × String)
deriving DecidableEq, Repr

/-- The `CopyObjectCommand` issued by `updateObjectMetadata`. -/
structure CopyObjectRequest where
  bucket : String
  key : String
  copySource : String
  metadata : List (String × String)
  metadataDirective : String
  contentType : String
deriving DecidableEq, Repr

/-- `S3StorageProvider.updateObjectMetadata` (s3.ts lines 169–208):
spread the current metadata, special-case a truthy `customTime` into
the lower-case `customtime` key, then write every other patch key
lower-cased; finally copy the object onto itself with the merged
metadata, a REPLACE directive and the original content type.  The
patch object is modelled as an association list in property order. -/
def s3UpdateObjectMetadata (bucketName objectKey : String)
    (currentObject : S3HeadInfo) (patch : List (String × String)) :
    CopyObjectRequest :=
  let newMetadata0 := currentObject.metadata
  let newMetadata1 :=
    match jsTruthy (jsLookup patch "customTime") with
    | some ct => jsSet newMetadata0 "customtime" ct
    | none => newMetadata0
  let newMetadata2 :=
    (patch.filter (fun p => ¬ p.1 == "customTime")).foldl
      (fun m p => jsSet m (strToLower p.1) p.2) newMetadata1
  { bucket := bucketName
    key := objectKey
    copySource := bucketName ++ "/" ++ objectKey
    metadata := newMetadata2
    metadataDirective := "REPLACE"
    contentType := currentObject.contentType }

/-- The metadata keys the patch writes: the lower-cased non-special
keys, plus `customtime` when a truthy `customTime` is supplied. -/
def effectivePatchKeys (patch : List (String × String)) : List String :=
  ((patch.filter (fun p => ¬ p.1 == "customTime")).map (fun p => strToLower p.1)) ++
  (match jsTruthy (jsLookup patch "customTime") with
   | some _ => ["customtime"]
   | none => [])

theorem jsLookup_jsSet_self (m : List (String × String)) (k v : String) :
    jsLookup (jsSet m k v) k = some v := by
  induction m with
  | nil => simp [jsSet, jsLookup]
  | cons p rest ih =>
    by_cases h : p.1 = k
    · simp [jsSet, jsLookup, h]
    · have hb : (p.1 == k) = false := beq_false_of_ne h
      simp only [jsSet, hb, Bool.false_eq_true, if_neg, not_false_iff]
      simpa [jsLookup, hb] using ih

theorem jsLookup_jsSet_other (m : List (String × String)) (k v k' : String)
    (h : k' ≠ k) : jsLookup (jsSet m k v) k' = jsLookup m k' := by
  induction m with
  | nil =>
    have hb : (k == k') = false := beq_false_of_ne (fun he => h he.symm)
    simp [jsSet, jsLookup, hb]
  | cons p rest ih =>
    by_cases hp : p.1 = k
    · have hb : (p.1 == k) = true := beq_iff_eq.mpr hp
      have hk' : (k == k') = false := beq_false_of_ne (fun he => h he.symm)
      have hp' : (p.1 == k') = false := by
        rw [hp]; exact hk'
      simp [jsSet, jsLookup, hb, hk', hp']
    · have hb : (p.1 == k) = false := beq_false_of_ne hp
      simp only [jsSet, hb, Bool.false_eq_true, if_neg, not_false_iff]
      by_cases hq : p.1 = k'
      · have hb' : (p.1 == k') = true := beq_iff_eq.mpr hq
        simp [jsLookup, hb']
      · have hb' : (p.1 == k') = false := beq_false_of_ne hq
        simpa [jsLookup, hb'] using ih

theorem foldl_jsSet_not_mem (l : List (String × String)) :
    ∀ (m0 : List (String × String)) (k : String),
      k ∉ l.map (fun p => strToLower p.1) →
      jsLookup (l.foldl (fun m p => jsSet m (strToLower p.1) p.2) m0) k =
        jsLookup m0 k := by
  induction l with
  | nil => intro m0 k _; rfl
  | cons p rest ih =>
    intro m0 k hk
    simp only [List.map_cons, List.mem_cons, not_or] at hk
    simp only [List.foldl_cons]
    rw [ih _ k hk.2, jsLookup_jsSet_other _ _ _ _ hk.1]

theorem foldl_jsSet_mem_nodup (l : List (String × String)) :
    ∀ (m0 : List (String × String)) (kv : String × String), kv ∈ l →
      (l.map (fun p => strToLower p.1)).Nodup →
      jsLookup (l.foldl (fun m p => jsSet m (strToLower p.1) p.2) m0) (strToLower kv.1) =
        some kv.2 := by
  induction l with
  | nil => intro m0 kv hkv; cases hkv
  | cons p rest ih =>
    intro m0 kv hkv hnd
    simp only [List.map_cons, List.nodup_cons] at hnd
    simp only [List.foldl_cons]
    rcases List.mem_cons.mp hkv with h | h
    · subst h
      rw [foldl_jsSet_not_mem rest _ _ hnd.1]
      exact jsLookup_jsSet_self _ _ _
    · exact ih _ kv h hnd.2

/-! ## Claim C7 -/

/-- C7: the copy-based S3 metadata update issues a self-copy with a
REPLACE directive that (a) preserves the original content type,
(b) preserves every previously-set custom metadata key the patch does
not touch, and (c) writes every non-special patch entry under its
lower-cased key with the patch value winning (assuming the patch's
lower-cased keys are distinct, as they are for a JS object whose keys
differ modulo case), and (d) writes a truthy `customTime` patch value
under `customtime`. -/
theorem c7_copy_update_preserves_and_merges
    (bucketName objectKey : String) (currentObject : S3HeadInfo)
    (patch : List (String × String))
    (hnd : ((patch.filter (fun p => ¬ p.1 == "customTime")).map
             (fun p => strToLower p.1)).Nodup) :
    (s3UpdateObjectMetadata bucketName objectKey currentObject patch).contentType
        = currentObject.contentType ∧
    (s3UpdateObjectMetadata bucketName objectKey currentObject
        patch).metadataDirective = "REPLACE" ∧
    (∀ k, k ∉ effectivePatchKeys patch →
      jsLookup (s3UpdateObjectMetadata bucketName objectKey currentObject
          patch).metadata k = jsLookup currentObject.metadata k) ∧
    (∀ kv ∈ patch, (kv.1 == "customTime") = false →
      jsLookup (s3UpdateObjectMetadata bucketName objectKey currentObject
          patch).metadata (strToLower kv.1) = some kv.2) ∧
    (∀ ct, jsTruthy (jsLookup patch "customTime") = some ct →
      "customtime" ∉ (patch.filter (fun p => ¬ p.1 == "customTime")).map
          (fun p => strToLower p.1) →
      jsLookup (s3UpdateObjectMetadata bucketName objectKey currentObject
          patch).metadata "customtime" = some ct) := by
  refine ⟨rfl, rfl, ?_, ?_, ?_⟩
  · intro k hk
    simp only [effectivePatchKeys, List.mem_append, not_or] at hk
    show jsLookup ((patch.filter (fun p => ¬ p.1 == "customTime")).foldl
      (fun m p => jsSet m (strToLower p.1) p.2) _) k = _
    rw [foldl_jsSet_not_mem _ _ _ hk.1]
    cases hct : jsTruthy (jsLookup patch "customTime") with
    | none => rfl
    | some ct =>
      rw [hct] at hk
      have hkc : k ≠ "customtime" := by
        intro he
        exact hk.2 (by rw [he]; exact List.mem_singleton.mpr rfl)
      exact jsLookup_jsSet_other _ _ _ _ hkc
  · intro kv hkv hns
    have hmem : kv ∈ patch.filter (fun p => ¬ p.1 == "customTime") := by
      rw [List.mem_filter]
      exact ⟨hkv, by simp [hns]⟩
    exact foldl_jsSet_mem_nodup _ _ kv hmem hnd
  · intro ct hct hnc
    show jsLookup ((patch.filter (fun p => ¬ p.1 == "customTime")).foldl
      (fun m p => jsSet m (strToLower p.1) p.2) _) "customtime" = _
    rw [foldl_jsSet_not_mem _ _ _ hnc, hct]
    exact jsLookup_jsSet_self _ _ _

/-- Concrete instance for C7: current metadata has `owner` and an old
`customtime`; the patch renews `customTime` and adds `Extra`. -/
def c7Current : S3HeadInfo :=
  { contentLength := 10
    contentType := "image/png"
    metadata := [("owner", "alice"), ("customtime", "2020-01-01T00:00:00.000Z")] }

def c7Patch : List (String × String) :=
  [("customTime", "2030-01-01T00:00:00.000Z"), ("Extra", "v")]

theorem c7_copy_update_preserves_and_merges_witness :
    ((c7Patch.filter (fun p => ¬ p.1 == "customTime")).map
      (fun p => strToLower p.1)).Nodup ∧
    ((s3UpdateObjectMetadata "bkt" "cdn/x" c7Current c7Patch).contentType
        = c7Current.contentType ∧
     (s3UpdateObjectMetadata "bkt" "cdn/x" c7Current
        c7Patch).metadataDirective = "REPLACE" ∧
     (∀ k, k ∉ effectivePatchKeys c7Patch →
       jsLookup (s3UpdateObjectMetadata "bkt" "cdn/x" c7Current
           c7Patch).metadata k = jsLookup c7Current.metadata k) ∧
     (∀ kv ∈ c7Patch, (kv.1 == "customTime") = false →
       jsLookup (s3UpdateObjectMetadata "bkt" "cdn/x" c7Current
           c7Patch).metadata (strToLower kv.1) = some kv.2) ∧
     (∀ ct, jsTruthy (jsLookup c7Patch "customTime") = some ct →
       "customtime" ∉ (c7Patch.filter (fun p => ¬ p.1 == "customTime")).map
           (fun p => strToLower p.1) →
       jsLookup (s3UpdateObjectMetadata "bkt" "cdn/x" c7Current
           c7Patch).metadata "customtime" = some ct)) :=
  ⟨by decide,
   c7_copy_update_preserves_and_merges "bkt" "cdn/x" c7Current c7Patch
     (by decide)⟩

/-! ## Provider factory — src/utils/storage/index.ts -/

/-- Which concrete provider class an instance belongs to. -/
inductive ProviderKind where
  | gcs
  | aws
deriving DecidableEq, Repr

/-- A constructed provider instance (class plus the bucket it
resolved from the environment). -/
structure ProviderInstance where
  kind : ProviderKind
  bucketName : String
deriving DecidableEq, Repr

/-- The environment variables the storage layer reads. -/
structure ProcessEnv where
  STORAGE_PROVIDER : Option String
  GCP_PROJECT_ID : Option String
  GCP_BUCKET_NAME : Option String
  AWS_BUCKET_NAME : Option String
  STORAGE_BUCKET_NAME : Option String
deriving DecidableEq, Repr

/-- The `GCSStorageProvider` constructor (gcs.ts lines 18–35):
`STORAGE_BUCKET_NAME || GCP_BUCKET_NAME || ''`, failing when the
bucket or the project id is missing. -/
def GCSStorageProvider.construct (env : ProcessEnv) :
    Except String ProviderInstance :=
  let bucketName := jsOrElse env.STORAGE_BUCKET_NAME
    (jsOrElse env.GCP_BUCKET_NAME "")
  if bucketName = "" ∨ jsTruthy env.GCP_PROJECT_ID = none then
    .error "Missing required Google Cloud Storage environment variables."
  else .ok { kind := .gcs, bucketName := bucketName }

/-- The `S3StorageProvider` constructor (s3.ts lines 26–40):
`STORAGE_BUCKET_NAME || AWS_BUCKET_NAME || ''`, failing when the
bucket is missing. -/
def S3StorageProvider.construct (env : ProcessEnv) :
    Except String ProviderInstance :=
  let bucketName := jsOrElse env.STORAGE_BUCKET_NAME
    (jsOrElse env.AWS_BUCKET_NAME "")
  if bucketName = "" then
    .error "Missing required AWS S3 bucket name environment variable."
  else .ok { kind := .aws, bucketName := bucketName }

/-- `getStorageProvider()`: the module-level singleton is passed in
and returned explicitly as `cached`.  When no instance is cached the
provider type is `(process.env.STORAGE_PROVIDER || 'gcs').toLowerCase()`
and the switch constructs GCS, S3, or throws. -/
def getStorageProvider (env : ProcessEnv)
    (cached : Option ProviderInstance) :
    Except String (ProviderInstance × Option ProviderInstance) :=
  match cached with
  | some p => .ok (p, some p)
  | none =>
    let providerType := strToLower (jsOrElse env.STORAGE_PROVIDER "gcs")
    if providerType = "gcs" then
      (GCSStorageProvider.construct env).map (fun p => (p, some p))
    else if providerType = "aws" then
      (S3StorageProvider.construct env).map (fun p => (p, some p))
    else
      .error ("Unsupported storage provider: " ++ providerType ++
        ". Supported values: gcs, aws")

/-! ## Claim C10 -/

/-- Environment with `STORAGE_PROVIDER` set to the empty string and a
fully configured GCS backend. -/
def c10EmptyEnv : ProcessEnv :=
  { STORAGE_PROVIDER := some ""
    GCP_PROJECT_ID := some "proj"
    GCP_BUCKET_NAME := some "bucket"
    AWS_BUCKET_NAME := none
    STORAGE_BUCKET_NAME := none }

/-- C10, counterexample: `STORAGE_PROVIDER=""` is neither unset nor
case-insensitively equal to `gcs` or `aws`, yet the factory does not
throw — the empty string is falsy, so `process.env.STORAGE_PROVIDER
|| 'gcs'` silently falls back to the GCS provider. -/
theorem c10_empty_string_counterexample :
    c10EmptyEnv.STORAGE_PROVIDER = some "" ∧
    strToLower "" ≠ "gcs" ∧ strToLower "" ≠ "aws" ∧
    getStorageProvider c10EmptyEnv none =
      .ok ({ kind := .gcs, bucketName := "bucket" },
           some { kind := .gcs, bucketName := "bucket" }) := by
  refine ⟨rfl, by decide, by decide, by rfl⟩

/-- C10 (amended): the factory dispatches on
`(STORAGE_PROVIDER || 'gcs').toLowerCase()` — it constructs the GCS
provider when the variable is unset, empty, or lower-cases to `gcs`
(the constructor's own configuration error propagating), the S3
provider when it lower-cases to `aws`, and throws for every other
value; and once an instance is cached, every subsequent call returns
that same instance without consulting the environment. -/
theorem c10_factory_dispatch_and_singleton (env : ProcessEnv) :
    ((jsTruthy env.STORAGE_PROVIDER = none ∨
      (∃ s, env.STORAGE_PROVIDER = some s ∧ strToLower s = "gcs")) →
      getStorageProvider env none =
        (GCSStorageProvider.construct env).map (fun p => (p, some p))) ∧
    ((∃ s, env.STORAGE_PROVIDER = some s ∧ strToLower s = "aws") →
      getStorageProvider env none =
        (S3StorageProvider.construct env).map (fun p => (p, some p))) ∧
    (∀ s, env.STORAGE_PROVIDER = some s → s ≠ "" →
      strToLower s ≠ "gcs" → strToLower s ≠ "aws" →
      getStorageProvider env none =
        .error ("Unsupported storage provider: " ++ strToLower s ++
          ". Supported values: gcs, aws")) ∧
    (∀ (p : ProviderInstance) (env2 : ProcessEnv),
      getStorageProvider env2 (some p) = .ok (p, some p)) := by
  refine ⟨?_, ?_, ?_, fun p env2 => rfl⟩
  · rintro (h | ⟨s, hs, hlow⟩)
    · unfold getStorageProvider jsOrElse
      rw [h]
      rfl
    · unfold getStorageProvider jsOrElse jsTruthy
      rw [hs]
      have hne : s ≠ "" := by
        intro he
        rw [he] at hlow
        exact absurd hlow (by decide)
      simp only [hne, if_neg, not_false_iff, hlow]
      rfl
  · rintro ⟨s, hs, hlow⟩
    unfold getStorageProvider jsOrElse jsTruthy
    rw [hs]
    have hne : s ≠ "" := by
      intro he
      rw [he] at hlow
      exact absurd hlow (by decide)
    simp only [hne, if_neg, not_false_iff, hlow]
    have : ("aws" : String) ≠ "gcs" := by decide
    simp [this]
  · intro s hs hne hgcs haws
    unfold getStorageProvider jsOrElse jsTruthy
    rw [hs]
    simp only [hne, if_neg, not_false_iff, hgcs, haws]

/-- Environment selecting GCS by a mixed-case value, for the C10
witness. -/
def c10GcsEnv : ProcessEnv :=
  { STORAGE_PROVIDER := some "GCS"
    GCP_PROJECT_ID := some "proj"
    GCP_BUCKET_NAME := some "bucket"
    AWS_BUCKET_NAME := none
    STORAGE_BUCKET_NAME := none }

theorem c10_factory_dispatch_and_singleton_witness :
    getStorageProvider c10GcsEnv none =
      (GCSStorageProvider.construct c10GcsEnv).map (fun p => (p, some p)) ∧
    getStorageProvider c10EmptyEnv
        (some { kind := .aws, bucketName := "b2" }) =
      .ok ({ kind := .aws, bucketName := "b2" },
           some { kind := .aws, bucketName := "b2" }) :=
  ⟨(c10_factory_dispatch_and_singleton c10GcsEnv).1
      (Or.inr ⟨"GCS", rfl, by decide⟩),
   (c10_factory_dispatch_and_singleton c10EmptyEnv).2.2.2
      { kind := .aws, bucketName := "b2" } c10EmptyEnv⟩

/-! ## Ingestion pipeline — k8s/s3-event-handler/src/event-handler.js -/

/-- The payload `processS3Object` POSTs to `${HOSTING_DOMAIN}/advertise`. -/
structure RegPayload where
  adminToken : String
  uhrpUrl : String
  uploaderIdentityKey : String
  objectIdentifier : String
  expiryTime : Int
  fileSize : Int
deriving DecidableEq, Repr

/-- The externally observable actions of the pipeline, in order:
S3 `HeadObject` / `GetObject` calls (with success flag), the
registration POST (with its payload and success flag), and the SQS
`DeleteMessage` acknowledgement. -/
inductive HandlerEvent where
  | headObject (bucket key : String) (ok : Bool)
  | getObject (bucket key : String) (ok : Bool)
  | registerCall (p : RegPayload) (ok : Bool)
  | deleteMessage
deriving DecidableEq, Repr

/-- `HeadObject` answer: content length, content type and the
user-defined metadata map. -/
structure S3HeadResult where
  contentLength : Int
  contentType : String
  metadata : List (String × String)
deriving DecidableEq, Repr

/-- The pipeline's collaborators: wall clock, the AWS SDK calls, the
SDK's hash-to-UHRP-URL function (`StorageUtils.getURLForHash` over
the SHA-256 of the bytes), JS `Date` parsing of the `customtime`
string, and the `/advertise` endpoint. -/
structure HandlerEnv where
  adminToken : String
  nowMs : Int
  headObject : String → String → Except String S3HeadResult
  getObject : String → String → Except String (List Nat)
  hashUrl : List Nat → String
  parseDateMs : String → Int
  register : RegPayload → Except String Unit

/-- `Math.round(ms / 1000)` on an integer millisecond count. -/
def roundDiv1000 (ms : Int) : Int := (ms + 500).ediv 1000

/-- Split a character list at every slash. -/
def splitOnSlash : List Char → List (List Char)
  | [] => [[]]
  | c :: rest =>
    match splitOnSlash rest with
    | [] => [[]]
    | seg :: segs =>
      if c = '/' then [] :: seg :: segs else (c :: seg) :: segs

/-- `objectKey.split('/').pop()`. -/
def lastSegment (s : String) : String :=
  match (splitOnSlash s.data).getLast? with
  | some seg => String.mk seg
  | none => ""

/-- `processS3Object(bucketName, objectKey)` (event-handler.js lines
83–186): skip keys outside `cdn/`; head the object; fail when the
`uploaderidentitykey` metadata is missing (or empty — JS truthiness);
compute the expiry from `customtime` or default to now + 30 days;
download and hash the bytes; POST the registration payload.  Returns
the emitted events and whether processing succeeded (an exception is
a `false` flag; the thrown error is rethrown to `processMessage`). -/
def processS3Object (env : HandlerEnv) (bucketName objectKey : String) :
    List HandlerEvent × Bool :=
  if ¬ strStartsWith objectKey "cdn/" then ([], true)
  else
    match env.headObject bucketName objectKey with
    | .error _ => ([.headObject bucketName objectKey false], false)
    | .ok metadata =>
      let tr0 := [HandlerEvent.headObject bucketName objectKey true]
      match jsTruthy (jsLookup metadata.metadata "uploaderidentitykey") with
      | none => (tr0, false)
      | some uploaderIdentityKey =>
        let expiryTime : Int :=
          match jsTruthy (jsLookup metadata.metadata "customtime") with
          | some ct => roundDiv1000 (env.parseDateMs ct)
          | none => roundDiv1000 env.nowMs + 30 * 24 * 60 * 60
        match env.getObject bucketName objectKey with
        | .error _ => (tr0 ++ [.getObject bucketName objectKey false], false)
        | .ok bytes =>
          let tr1 := tr0 ++ [HandlerEvent.getObject bucketName objectKey true]
          let uhrpUrl := env.hashUrl bytes
          let objectIdentifier := lastSegment objectKey
          let payload : RegPayload :=
            { adminToken := env.adminToken
              uhrpUrl := uhrpUrl
              uploaderIdentityKey := uploaderIdentityKey
              objectIdentifier := objectIdentifier
              expiryTime := expiryTime
              fileSize := metadata.contentLength }
          match env.register payload with
          | .error _ => (tr1 ++ [.registerCall payload false], false)
          | .ok _ => (tr1 ++ [.registerCall payload true], true)

/-- One record of an S3 event notification. -/
structure S3EventRecord where
  eventName : String
  bucket : String
  key : String
deriving DecidableEq, Repr

/-- Parsed SQS message body; `records = none` models a JSON body
without a `Records` array. -/
structure MessageBody where
  records : Option (List S3EventRecord)
deriving DecidableEq, Repr

/-- An SQS message; `body = none` models a body `JSON.parse` throws
on. -/
structure SqsMessage where
  body : Option MessageBody
deriving DecidableEq, Repr

/-- `s.replace(/\x2b/g, ' ')` — plus signs to spaces. -/
def plusToSpace (s : String) : String :=
  String.mk (s.data.map (fun c => if c = '+' then ' ' else c))

/-- Percent-decoding to bytes: `%XY` hex pairs become one byte, other
characters contribute their UTF-8 bytes; `none` models the
`URIError` thrown on a malformed escape. -/
def percentDecodeBytes : List Char → Option (List Nat)
  | [] => some []
  | '%' :: a :: b :: rest =>
    match hexDigitVal a, hexDigitVal b with
    | some x, some y => (percentDecodeBytes rest).map (fun t => (16 * x + y) :: t)
    | _, _ => none
  | '%' :: _ => none
  | c :: rest => (percentDecodeBytes rest).map (fun t => utf8EncodeCharNat c ++ t)

/-- `decodeURIComponent(key.replace(/\x2b/g, ' '))`. -/
def decodeKey (raw : String) : Option String :=
  match percentDecodeBytes (plusToSpace raw).data with
  | none => none
  | some bytes => (utf8DecodeStrict bytes).map String.mk

/-- Processing of one record of `body.Records`: only events whose
name begins with `ObjectCreated:` are handled; the key is decoded and
passed to `processS3Object`; a decoding error aborts the message. -/
def processRecord (env : HandlerEnv) (r : S3EventRecord) :
    List HandlerEvent × Bool :=
  if strStartsWith r.eventName "ObjectCreated:" then
    match decodeKey r.key with
    | none => ([], false)
    | some objectKey => processS3Object env r.bucket objectKey
  else ([], true)

/-- Sequential processing of the records (the `for` loop awaits each
in turn); the first failure aborts the remaining records. -/
def processRecords (env : HandlerEnv) : List S3EventRecord →
    List HandlerEvent × Bool
  | [] => ([], true)
  | r :: rest =>
    match processRecord env r with
    | (tr, true) =>
      let rec2 := processRecords env rest
      (tr ++ rec2.1, rec2.2)
    | (tr, false) => (tr, false)

/-- `processMessage(message)` (lines 189–217): parse the body, run
every `ObjectCreated:` record, and delete the message from the queue
only when no step threw; any exception is caught, counted, and the
message is left for redelivery. -/
def processMessage (env : HandlerEnv) (msg : SqsMessage) : List HandlerEvent :=
  match msg.body with
  | none => []
  | some body =>
    match body.records with
    | none => [HandlerEvent.deleteMessage]
    | some recs =>
      match processRecords env recs with
      | (tr, true) => tr ++ [HandlerEvent.deleteMessage]
      | (tr, false) => tr

/-- One polling iteration over a received batch: every message is
processed (`Promise.all`), each isolated by `processMessage`'s
try/catch. -/
def processBatch (env : HandlerEnv) (msgs : List SqsMessage) :
    List (List HandlerEvent) :=
  msgs.map (processMessage env)

/-- Did the processing of the message succeed (so that the delete is
reached)? -/
def messageSucceeds (env : HandlerEnv) (msg : SqsMessage) : Bool :=
  match msg.body with
  | none => false
  | some body =>
    match body.records with
    | none => true
    | some recs => (processRecords env recs).2

theorem delete_not_in_processS3Object (env : HandlerEnv) (b k : String) :
    HandlerEvent.deleteMessage ∉ (processS3Object env b k).1 := by
  unfold processS3Object
  repeat' split
  all_goals try dsimp only
  all_goals repeat' split
  all_goals simp

theorem processS3Object_ok_no_failed_register (env : HandlerEnv)
    (b k : String) (h : (processS3Object env b k).2 = true) :
    ∀ p, HandlerEvent.registerCall p false ∉ (processS3Object env b k).1 := by
  unfold processS3Object at h ⊢
  repeat' split at h
  all_goals try dsimp only at h ⊢
  all_goals repeat' split at h
  all_goals simp_all

theorem delete_not_in_processRecord (env : HandlerEnv) (r : S3EventRecord) :
    HandlerEvent.deleteMessage ∉ (processRecord env r).1 := by
  unfold processRecord
  by_cases he : strStartsWith r.eventName "ObjectCreated:" = true
  · rw [if_pos he]
    cases hk : decodeKey r.key with
    | none => simp
    | some k =>
      have := delete_not_in_processS3Object env r.bucket k
      simpa using this
  · rw [if_neg he]
    simp

theorem processRecord_ok_no_failed_register (env : HandlerEnv)
    (r : S3EventRecord) (h : (processRecord env r).2 = true) :
    ∀ p, HandlerEvent.registerCall p false ∉ (processRecord env r).1 := by
  unfold processRecord at h ⊢
  by_cases he : strStartsWith r.eventName "ObjectCreated:" = true
  · rw [if_pos he] at h ⊢
    cases hk : decodeKey r.key with
    | none => rw [hk] at h; simp at h
    | some k =>
      rw [hk] at h
      dsimp only at h ⊢
      exact processS3Object_ok_no_failed_register env r.bucket k h
  · rw [if_neg he]
    simp

theorem delete_not_in_processRecords (env : HandlerEnv)
    (recs : List S3EventRecord) :
    HandlerEvent.deleteMessage ∉ (processRecords env recs).1 := by
  induction recs with
  | nil => simp [processRecords]
  | cons r rest ih =>
    unfold processRecords
    rcases hr : processRecord env r with ⟨tr, flag⟩
    have hnr : HandlerEvent.deleteMessage ∉ tr := by
      have := delete_not_in_processRecord env r
      rw [hr] at this
      exact this
    cases flag with
    | true => simp [hnr, ih]
    | false => simpa using hnr

theorem processRecords_ok_no_failed_register (env : HandlerEnv)
    (recs : List S3EventRecord) (h : (processRecords env recs).2 = true) :
    ∀ p, HandlerEvent.registerCall p false ∉ (processRecords env recs).1 := by
  induction recs with
  | nil => simp [processRecords]
  | cons r rest ih =>
    unfold processRecords at h ⊢
    rcases hr : processRecord env r with ⟨tr, flag⟩
    rw [hr] at h
    cases flag with
    | true =>
      have htr : ∀ p, HandlerEvent.registerCall p false ∉ tr := by
        intro p
        have := processRecord_ok_no_failed_register env r (by rw [hr]) p
        rw [hr] at this
        exact this
      simp only at h
      intro p
      simp only [List.mem_append, not_or]
      exact ⟨htr p, ih h p⟩
    | false => simp at h

theorem processRecords_ok_all (env : HandlerEnv)
    (recs : List S3EventRecord) (h : (processRecords env recs).2 = true) :
    ∀ r ∈ recs, (processRecord env r).2 = true := by
  induction recs with
  | nil => intro r hr; cases hr
  | cons q rest ih =>
    intro r hr
    unfold processRecords at h
    rcases hq : processRecord env q with ⟨tr, flag⟩
    rw [hq] at h
    cases flag with
    | true =>
      simp only at h
      rcases List.mem_cons.mp hr with he | he
      · subst he; rw [hq]
      · exact ih h r he
    | false => simp at h

theorem delete_mem_processMessage_iff (env : HandlerEnv) (msg : SqsMessage) :
    HandlerEvent.deleteMessage ∈ processMessage env msg ↔
      messageSucceeds env msg = true := by
  unfold processMessage messageSucceeds
  rcases hb : msg.body with _ | body
  · simp
  · dsimp only
    rcases hrec : body.records with _ | recs
    · simp [hrec]
    · try rw [hrec]
      dsimp only
      rcases hr : processRecords env recs with ⟨tr, flag⟩
      have hnd : HandlerEvent.deleteMessage ∉ tr := by
        have := delete_not_in_processRecords env recs
        rw [hr] at this
        exact this
      try rw [hr]
      cases flag with
      | true => simp [hr, hnd]
      | false => simp [hr, hnd]

/-! ## Claims C4, C8, C9 -/

/-- C4: the pipeline acknowledges (deletes) a change-notification
message exactly when every step of its processing succeeded; the
delete is then the last emitted action, and every registration call
made before it returned success.  Whenever any step fails — metadata
fetch, download, or registration — no delete is issued and the
message stays on the queue for redelivery. -/
theorem c4_delete_only_after_success (env : HandlerEnv) (msg : SqsMessage) :
    (HandlerEvent.deleteMessage ∈ processMessage env msg ↔
      messageSucceeds env msg = true) ∧
    (messageSucceeds env msg = true →
      ∃ tr, processMessage env msg = tr ++ [HandlerEvent.deleteMessage] ∧
        HandlerEvent.deleteMessage ∉ tr ∧
        ∀ p, HandlerEvent.registerCall p false ∉ tr) := by
  refine ⟨delete_mem_processMessage_iff env msg, ?_⟩
  intro hok
  unfold processMessage
  unfold messageSucceeds at hok
  rcases hb : msg.body with _ | body
  · rw [hb] at hok
    simp at hok
  · rw [hb] at hok
    dsimp only at hok
    dsimp only
    rcases hrecs : body.records with _ | recs
    · rw [hrecs] at hok
      refine ⟨[], by simp, by simp, by simp⟩
    · rw [hrecs] at hok
      dsimp only at hok
      dsimp only
      rcases hr : processRecords env recs with ⟨tr, flag⟩
      rw [hr] at hok
      dsimp only at hok
      subst hok
      refine ⟨tr, by simp [hr], ?_, ?_⟩
      · have := delete_not_in_processRecords env recs
        rw [hr] at this
        exact this
      · intro p
        have := processRecords_ok_no_failed_register env recs (by rw [hr]) p
        rw [hr] at this
        exact this

/-- A fully successful environment and a single `cdn/` create event,
for the C4 witness. -/
def c4Env : HandlerEnv :=
  { adminToken := "tok"
    nowMs := 1000
    headObject := fun _ _ =>
      .ok { contentLength := 4, contentType := "text/plain",
            metadata := [("uploaderidentitykey", "02abc"),
                         ("customtime", "2030-01-01T00:00:00.000Z")] }
    getObject := fun _ _ => .ok [1, 2, 3, 4]
    hashUrl := fun _ => "uhrp-url"
    parseDateMs := fun _ => 1893456000000
    register := fun _ => .ok () }

def c4Recs : List S3EventRecord :=
  [{ eventName := "ObjectCreated:Put", bucket := "bkt", key := "cdn/obj1" }]

def c4Msg : SqsMessage :=
  { body := some { records := some c4Recs } }

theorem c4_delete_only_after_success_witness :
    messageSucceeds c4Env c4Msg = true ∧
    (∃ tr, processMessage c4Env c4Msg = tr ++ [HandlerEvent.deleteMessage] ∧
      HandlerEvent.deleteMessage ∉ tr ∧
      ∀ p, HandlerEvent.registerCall p false ∉ tr) :=
  ⟨by decide, (c4_delete_only_after_success c4Env c4Msg).2 (by decide)⟩

/-- C8: a message whose create events all carry keys outside the
`cdn/` prefix is acknowledged immediately: its trace is exactly the
delete — no head, no download, no registration call. -/
theorem c8_non_cdn_key_acked_without_calls (env : HandlerEnv)
    (recs : List S3EventRecord)
    (h : ∀ r ∈ recs, ∃ k, decodeKey r.key = some k ∧
      strStartsWith k "cdn/" = false) :
    processMessage env { body := some { records := some recs } } =
      [HandlerEvent.deleteMessage] := by
  have key : ∀ l, (∀ r ∈ l, ∃ k, decodeKey r.key = some k ∧
      strStartsWith k "cdn/" = false) →
      processRecords env l = ([], true) := by
    intro l
    induction l with
    | nil => intro _; rfl
    | cons r rest ih =>
      intro hl
      obtain ⟨k, hk, hcdn⟩ := hl r (List.mem_cons_self _ _)
      have hrec : processRecord env r = ([], true) := by
        unfold processRecord
        by_cases he : strStartsWith r.eventName "ObjectCreated:"
        · simp only [he, if_pos, hk]
          unfold processS3Object
          simp [hcdn]
        · simp [he]
      unfold processRecords
      rw [hrec]
      simp [ih (fun q hq => hl q (List.mem_cons_of_mem _ hq))]
  unfold processMessage
  dsimp only
  rw [key recs h]
  rfl

def c8Env : HandlerEnv :=
  { adminToken := "t"
    nowMs := 0
    headObject := fun _ _ => .error "unused"
    getObject := fun _ _ => .error "unused"
    hashUrl := fun _ => "u"
    parseDateMs := fun _ => 0
    register := fun _ => .error "unused" }

/-- The spec's §8 scenario: a create notification for `other/foo`. -/
def c8Recs : List S3EventRecord :=
  [{ eventName := "ObjectCreated:Put", bucket := "bkt", key := "other/foo" }]

theorem c8_non_cdn_key_acked_without_calls_witness :
    (∀ r ∈ c8Recs, ∃ k, decodeKey r.key = some k ∧
      strStartsWith k "cdn/" = false) ∧
    processMessage c8Env { body := some { records := some c8Recs } } =
      [HandlerEvent.deleteMessage] := by
  have h : ∀ r ∈ c8Recs, ∃ k, decodeKey r.key = some k ∧
      strStartsWith k "cdn/" = false := by
    intro r hr
    rcases List.mem_singleton.mp hr with rfl
    exact ⟨"other/foo", by decide, by decide⟩
  exact ⟨h, c8_non_cdn_key_acked_without_calls c8Env c8Recs h⟩

/-- C9: when a `cdn/` object's metadata lacks (or has an empty)
`uploaderidentitykey`, processing of that object stops right after
the metadata fetch — no download, no registration call is ever made —
the message is not deleted (it will redeliver), and the batch
processing itself is total: every message of the batch still yields a
trace. -/
theorem c9_missing_uploader_metadata (env : HandlerEnv)
    (msgs : List SqsMessage) (msg : SqsMessage)
    (recs : List S3EventRecord) (r : S3EventRecord) (k : String)
    (md : S3HeadResult)
    (hmem : msg ∈ msgs)
    (hbody : msg.body = some { records := some recs })
    (hr : r ∈ recs)
    (hev : strStartsWith r.eventName "ObjectCreated:" = true)
    (hk : decodeKey r.key = some k)
    (hcdn : strStartsWith k "cdn/" = true)
    (hhead : env.headObject r.bucket k = .ok md)
    (hmissing : jsTruthy (jsLookup md.metadata "uploaderidentitykey") = none) :
    processS3Object env r.bucket k =
      ([HandlerEvent.headObject r.bucket k true], false) ∧
    (∀ p b, HandlerEvent.registerCall p b ∉ (processS3Object env r.bucket k).1) ∧
    HandlerEvent.deleteMessage ∉ processMessage env msg ∧
    (processBatch env msgs).length = msgs.length ∧
    processMessage env msg ∈ processBatch env msgs := by
  have hobj : processS3Object env r.bucket k =
      ([HandlerEvent.headObject r.bucket k true], false) := by
    unfold processS3Object
    simp [hcdn, hhead, hmissing]
  have hrec : (processRecord env r).2 = false := by
    unfold processRecord
    simp [hev, hk, hobj]
  refine ⟨hobj, ?_, ?_, ?_, ?_⟩
  · intro p b
    rw [hobj]
    simp
  · rw [delete_mem_processMessage_iff]
    unfold messageSucceeds
    rw [hbody]
    intro hcontra
    have := processRecords_ok_all env recs hcontra r hr
    rw [hrec] at this
    cases this
  · simp [processBatch]
  · exact List.mem_map_of_mem _ hmem

def c9Env : HandlerEnv :=
  { adminToken := "t"
    nowMs := 0
    headObject := fun _ _ =>
      .ok { contentLength := 1, contentType := "bin", metadata := [] }
    getObject := fun _ _ => .error "unused"
    hashUrl := fun _ => "u"
    parseDateMs := fun _ => 0
    register := fun _ => .error "unused" }

def c9Rec : S3EventRecord :=
  { eventName := "ObjectCreated:Put", bucket := "bkt", key := "cdn/obj" }

def c9Msg : SqsMessage := { body := some { records := some [c9Rec] } }

theorem c9_missing_uploader_metadata_witness :
    processS3Object c9Env c9Rec.bucket "cdn/obj" =
      ([HandlerEvent.headObject c9Rec.bucket "cdn/obj" true], false) ∧
    (∀ p b, HandlerEvent.registerCall p b ∉
      (processS3Object c9Env c9Rec.bucket "cdn/obj").1) ∧
    HandlerEvent.deleteMessage ∉ processMessage c9Env c9Msg ∧
    (processBatch c9Env [c9Msg]).length = [c9Msg].length ∧
    processMessage c9Env c9Msg ∈ processBatch c9Env [c9Msg] :=
  c9_missing_uploader_metadata c9Env [c9Msg] c9Msg [c9Rec] c9Rec "cdn/obj"
    { contentLength := 1, contentType := "bin", metadata := [] }
    (List.mem_singleton.mpr rfl) rfl (List.mem_singleton.mpr rfl)
    (by decide) (by decide) (by decide) rfl (by decide)

end StorageServer
